import Mathlib

/-
Verification development for the system-design companion repository.
The data model and store mirror app/backend/workspace.py; the step functions
mirror workflow_definitions/system_design/functions_companion.py. External
reasoning calls (the LLM) are abstracted as oracle arguments: each function
that consults the reasoner receives the value the reasoner would return.
-/

namespace Companion

/-- Problem space document with the field defaults of the ProblemSpace
pydantic model in app/backend/workspace.py. -/
structure ProblemSpace where
  context : String := ""
  invariants : List String := []
  goal : String := ""
  problem : String := ""
  variants : List String := []
deriving DecidableEq, Repr

/-- Solution candidate, mirroring SolutionCandidate in app/backend/workspace.py. -/
structure SolutionCandidate where
  id : Int
  hypothesis : String := ""
  model : String := ""
  reasoning : String := ""
deriving DecidableEq, Repr

/-- Comparison of candidates, mirroring Comparison in app/backend/workspace.py. -/
structure Comparison where
  analysis : String
  recommendation : String
deriving DecidableEq, Repr

/-- Solution space, mirroring SolutionSpace in app/backend/workspace.py. -/
structure SolutionSpace where
  candidates : List SolutionCandidate := []
  comparison : Option Comparison := none
  simplification_feedback : Option String := none
deriving DecidableEq, Repr

/-- Versioned workspace snapshot, mirroring Workspace in app/backend/workspace.py. -/
structure Workspace where
  id : String
  version : String
  problem_space : ProblemSpace
  solution_space : Option SolutionSpace := none
deriving DecidableEq, Repr

/-- State of the on-disk store rooted at the workspaces directory, as managed by
WorkspaceManager: dirs is the list of workspace directories that exist, in
creation order; files is the list of version files, kept in modification-time
order, oldest first. Each file entry is (workspace id, version id, content). -/
structure StoreState where
  dirs : List String := []
  files : List (String × String × Workspace) := []
deriving DecidableEq, Repr

/-- WorkspaceManager getWorkspaceDir: mkdir with exist-ok semantics, so the
directory is created if absent and the call is otherwise a no-op. -/
def getWorkspaceDir (s : StoreState) (wid : String) : StoreState :=
  if wid ∈ s.dirs then s else { s with dirs := s.dirs ++ [wid] }

/-- WorkspaceManager list_workspaces: the directories under the root. -/
def list_workspaces (s : StoreState) : List String := s.dirs

/-- The version ids of the files of one workspace, in stored (mtime) order. -/
def versionsOf (s : StoreState) (wid : String) : List String :=
  (s.files.filter fun f => f.1 == wid).map fun f => f.2.1

/-- WorkspaceManager list_versions: creates the workspace directory as a side
effect, then returns the version ids sorted by modification time. -/
def list_versions (s : StoreState) (wid : String) : StoreState × List String :=
  (getWorkspaceDir s wid, versionsOf (getWorkspaceDir s wid) wid)

/-- Whether a version file exists for the given (workspace id, version id) key. -/
def hasKey (s : StoreState) (wid vid : String) : Bool :=
  s.files.any fun f => f.1 == wid && f.2.1 == vid

/-- WorkspaceManager save_workspace: creates the workspace directory, then
writes the serialized workspace keyed by (id, version). Overwriting an
existing file bumps its modification time, which the mtime-ordered files
list models by removing the old entry and appending the new one at the end. -/
def save_workspace (s : StoreState) (ws : Workspace) : StoreState :=
  let s1 := getWorkspaceDir s ws.id
  { s1 with files :=
      (s1.files.filter fun f => !(f.1 == ws.id && f.2.1 == ws.version))
        ++ [(ws.id, ws.version, ws)] }

/-- Failure raised by the store: the FileNotFoundError of load_workspace. -/
inductive StoreError where
  | notFound
deriving DecidableEq, Repr

/-- Lookup of a version file by its (workspace id, version id) key. -/
def findFile (files : List (String × String × Workspace)) (wid vid : String) :
    Option Workspace :=
  (files.find? fun f => f.1 == wid && f.2.1 == vid).map fun f => f.2.2

/-- WorkspaceManager load_workspace: resolving the path creates the workspace
directory as a side effect; raises notFound when the file does not exist. -/
def load_workspace (s : StoreState) (wid vid : String) :
    StoreState × Except StoreError Workspace :=
  (getWorkspaceDir s wid,
   match findFile (getWorkspaceDir s wid).files wid vid with
   | some ws => Except.ok ws
   | none => Except.error StoreError.notFound)

/-- The dedup loop of load_workspace_state: iterate candidates in stored order,
keeping only those whose id was not seen before. -/
def sanitizeCandidates (seen : List Int) : List SolutionCandidate → List SolutionCandidate
  | [] => []
  | c :: rest =>
    if c.id ∈ seen then sanitizeCandidates seen rest
    else c :: sanitizeCandidates (c.id :: seen) rest

/-- Sanitize a loaded solution space: dedup its candidates by id when any exist. -/
def sanitizeSolutionSpace (ss : SolutionSpace) : SolutionSpace :=
  if ss.candidates = [] then ss
  else { ss with candidates := sanitizeCandidates [] ss.candidates }

/-- load_workspace_state in functions_companion.py: loads the workspace,
sanitizes the solution space, and on FileNotFoundError substitutes the default
empty ProblemSpace and no SolutionSpace. -/
def load_workspace_state (s : StoreState) (workspace_id version_id : String) :
    StoreState × ProblemSpace × Option SolutionSpace :=
  ((load_workspace s workspace_id version_id).1,
   match (load_workspace s workspace_id version_id).2 with
   | Except.ok ws => (ws.problem_space, ws.solution_space.map sanitizeSolutionSpace)
   | Except.error _ => ({}, none))

/-- extract_problem in functions_companion.py, with the reasoner output passed
as an oracle argument: the new problem space is the reasoner result and
has_changes records whether it differs structurally from the current one. -/
def extract_problem (current_problem : ProblemSpace) (reasoner : ProblemSpace) :
    ProblemSpace × Bool :=
  (reasoner, decide (reasoner ≠ current_problem))

/-- ASCII lower-casing of a string, character by character. On the ASCII
observation strings produced by the check step this coincides with the
Python str.lower call used in refine_problem_space. -/
def pyLower (s : String) : String := String.mk (s.data.map Char.toLower)

/-- The skip condition of refine_problem_space: no observations, or a single
observation whose lowercase form is the consistent sentinel. -/
def refineSkip (observations : List String) : Bool :=
  observations.isEmpty ||
    (observations.length == 1 && pyLower observations.headI == "consistent")

/-- refine_problem_space in functions_companion.py, with the reasoner output
passed as an oracle argument. When the skip condition holds the step is a
pass-through and the oracle is never consulted. -/
def refine_problem_space (current_problem : ProblemSpace) (observations : List String)
    (previous_has_changes : Bool) (reasoner : ProblemSpace) : ProblemSpace × Bool :=
  if refineSkip observations then (current_problem, previous_has_changes)
  else (reasoner, previous_has_changes || decide (reasoner ≠ current_problem))

/-- Python max over a list with a default for the empty list. -/
def pyMaxInt (dflt : Int) : List Int → Int
  | [] => dflt
  | x :: xs => xs.foldl max x

/-- The id allocation of generate_candidate: 1 when no candidates exist,
otherwise the maximum existing id plus one. -/
def nextCandidateId (existing : List SolutionCandidate) : Int :=
  if existing.isEmpty then 1
  else pyMaxInt 0 (existing.map fun c => c.id) + 1

/-- generate_candidate in functions_companion.py, with the reasoner output
passed as an oracle argument: the returned candidate is the reasoner result
with its id overwritten by the allocator. -/
def generate_candidate (solution_space : Option SolutionSpace)
    (reasoner : SolutionCandidate) : SolutionCandidate :=
  let existing := (solution_space.map fun ss => ss.candidates).getD []
  { reasoner with id := nextCandidateId existing }

/-- Structured reasoner output of compare_solutions (ComparisonResult model). -/
structure ComparisonResult where
  analysis : String
  recommendation : String
  simplification_feedback : String
deriving DecidableEq, Repr

/-- The candidate union formed by compare_solutions: the prior candidates
followed by the newly generated candidate when present. -/
def unionCandidates (solution_space : Option SolutionSpace)
    (candidate : Option SolutionCandidate) : List SolutionCandidate :=
  ((solution_space.map fun ss => ss.candidates).getD []) ++ candidate.toList

/-- compare_solutions in functions_companion.py, with the reasoner output
passed as an oracle argument: returns nothing when the union is empty, else
a complete solution space over the full union. -/
def compare_solutions (solution_space : Option SolutionSpace)
    (candidate : Option SolutionCandidate) (reasoner : ComparisonResult) :
    Option SolutionSpace :=
  if (unionCandidates solution_space candidate).isEmpty then none
  else some
    { candidates := unionCandidates solution_space candidate,
      comparison := some
        { analysis := reasoner.analysis, recommendation := reasoner.recommendation },
      simplification_feedback := some reasoner.simplification_feedback }

/-- update_workspace in functions_companion.py: builds a Workspace with a fresh
version id (the uuid draw is passed in as new_version) and saves it. -/
def update_workspace (s : StoreState) (workspace_id : String)
    (problem_space : ProblemSpace) (solution_space : Option SolutionSpace)
    (new_version : String) : StoreState × String :=
  (save_workspace s
    { id := workspace_id, version := new_version,
      problem_space := problem_space, solution_space := solution_space },
   new_version)

/-- save_state in functions_companion.py. A missing problem space or empty
workspace id yields an empty result (no final_version_id). When has_changes
is false and no solution space value is present, nothing is written and the
returned final_version_id is the workspace id. Otherwise remove_solutions
forces the solution space to none and a new version is written. -/
def save_state (s : StoreState) (problem_space : Option ProblemSpace)
    (workspace_id : String) (has_changes : Bool)
    (solution_space : Option SolutionSpace) (remove_solutions : Bool)
    (new_version : String) : StoreState × Option String :=
  if workspace_id = "" ∨ problem_space = none then (s, none)
  else if has_changes = false ∧ solution_space = none then (s, some workspace_id)
  else
    let ss := if remove_solutions then none else solution_space
    let r := update_workspace s workspace_id (problem_space.getD {}) ss new_version
    (r.1, some r.2)

/-- Failure of the external reasoning capability (ReasonerFailure in the spec):
a step whose LLM call raises propagates the exception. -/
inductive ReasonerFailure where
  | failure (msg : String)
deriving DecidableEq, Repr

/-- Whether an Except value is an error. -/
def isErr {ε α : Type} : Except ε α → Bool
  | Except.error _ => true
  | Except.ok _ => false

/-- Modelled from the spec: the reasoner oracle of one problem-refinement run.
The PipelineEngine (the wirl runner) and the companion.wirl graph are not in
the repository sources; per section 6 the reasoner is synchronous and fails
with ReasonerFailure, so each step receives its call result as an Except. -/
structure ProblemReasoner where
  extract : Except ReasonerFailure ProblemSpace
  check : Except ReasonerFailure (List String)
  refine : Except ReasonerFailure ProblemSpace
deriving Repr

/-- Modelled from the spec: the reasoner oracle of one solution-generation run. -/
structure SolutionReasoner where
  gen : Except ReasonerFailure SolutionCandidate
  cmp : Except ReasonerFailure ComparisonResult
deriving Repr

/-- refine_problem_space with a fallible reasoner: the oracle is consulted,
and its failure propagated, only when the skip condition is false. -/
def refine_problem_space_step (current_problem : ProblemSpace)
    (observations : List String) (previous_has_changes : Bool)
    (reasoner : Except ReasonerFailure ProblemSpace) :
    Except ReasonerFailure (ProblemSpace × Bool) :=
  if refineSkip observations then Except.ok (current_problem, previous_has_changes)
  else match reasoner with
    | Except.error e => Except.error e
    | Except.ok r =>
        Except.ok (refine_problem_space current_problem observations previous_has_changes r)

/-- generate_candidate with a fallible reasoner: the try block re-raises any
exception of the LLM call. -/
def generate_candidate_step (solution_space : Option SolutionSpace)
    (reasoner : Except ReasonerFailure SolutionCandidate) :
    Except ReasonerFailure SolutionCandidate :=
  match reasoner with
  | Except.error e => Except.error e
  | Except.ok r => Except.ok (generate_candidate solution_space r)

/-- compare_solutions with a fallible reasoner: the oracle is consulted, and
its failure propagated, only when the candidate union is non-empty. -/
def compare_solutions_step (solution_space : Option SolutionSpace)
    (candidate : Option SolutionCandidate)
    (reasoner : Except ReasonerFailure ComparisonResult) :
    Except ReasonerFailure (Option SolutionSpace) :=
  if (unionCandidates solution_space candidate).isEmpty then Except.ok none
  else match reasoner with
    | Except.error e => Except.error e
    | Except.ok r => Except.ok (compare_solutions solution_space candidate r)

/-- Modelled from the spec: the problem-refinement workflow wiring
load, extract, check, conditional refine, save of companion.wirl (the wirl
graph itself is not in the repository sources; section 4.4 of the spec and
the comments inside save_state fix the wiring, with the loaded solution
space passed through to the save step). A failing step aborts the run. -/
def runProblemWorkflow (s : StoreState) (workspace_id version_id : String)
    (r : ProblemReasoner) (remove_solutions : Bool) (new_version : String) :
    StoreState × Except ReasonerFailure (Option String) :=
  let s1 := (load_workspace_state s workspace_id version_id).1
  let current := (load_workspace_state s workspace_id version_id).2.1
  let ss := (load_workspace_state s workspace_id version_id).2.2
  match r.extract with
  | Except.error e => (s1, Except.error e)
  | Except.ok ex =>
    let newPs := (extract_problem current ex).1
    let hc := (extract_problem current ex).2
    match r.check with
    | Except.error e => (s1, Except.error e)
    | Except.ok obs =>
      match refine_problem_space_step newPs obs hc r.refine with
      | Except.error e => (s1, Except.error e)
      | Except.ok rf =>
        let res := save_state s1 (some rf.1) workspace_id rf.2 ss
          remove_solutions new_version
        (res.1, Except.ok res.2)

/-- Modelled from the spec: the solution-generation workflow wiring
load, generate-candidate, compare, save of solution_companion.wirl (the wirl
graph itself is not in the repository sources; section 4.5 of the spec fixes
the wiring, with save invoked with has_changes false and remove_solutions
false). A failing step aborts the run. -/
def runSolutionWorkflow (s : StoreState) (workspace_id version_id : String)
    (r : SolutionReasoner) (new_version : String) :
    StoreState × Except ReasonerFailure (Option String) :=
  let s1 := (load_workspace_state s workspace_id version_id).1
  let ps := (load_workspace_state s workspace_id version_id).2.1
  let ss := (load_workspace_state s workspace_id version_id).2.2
  match generate_candidate_step ss r.gen with
  | Except.error e => (s1, Except.error e)
  | Except.ok cand =>
    match compare_solutions_step ss (some cand) r.cmp with
    | Except.error e => (s1, Except.error e)
    | Except.ok newSS =>
      let res := save_state s1 (some ps) workspace_id false newSS false new_version
      (res.1, Except.ok res.2)

/-- Modelled from the spec: a sequence of generation calls against one
workspace, each appending the freshly generated candidate to the stored
candidate list before the next call, as the generate-compare-save-reload
cycle of section 4.5 does. The protos are the successive reasoner outputs. -/
def genFold (init : List SolutionCandidate) (protos : List SolutionCandidate) :
    List SolutionCandidate :=
  protos.foldl (fun acc p => acc ++ [generate_candidate (some { candidates := acc }) p]) init

/-- The candidates appended by genFold, in generation order. -/
def genCands (init : List SolutionCandidate) : List SolutionCandidate → List SolutionCandidate
  | [] => []
  | p :: ps =>
    let g := generate_candidate (some { candidates := init }) p
    g :: genCands (init ++ [g]) ps

/- Helper lemmas -/

lemma getWorkspaceDir_files (s : StoreState) (w : String) :
    (getWorkspaceDir s w).files = s.files := by
  unfold getWorkspaceDir; split <;> rfl

lemma mem_getWorkspaceDir_dirs (s : StoreState) (w : String) :
    w ∈ (getWorkspaceDir s w).dirs := by
  unfold getWorkspaceDir
  split
  · assumption
  · simp

lemma load_workspace_state_fst (s : StoreState) (w v : String) :
    (load_workspace_state s w v).1 = getWorkspaceDir s w := rfl

lemma load_workspace_state_files (s : StoreState) (w v : String) :
    (load_workspace_state s w v).1.files = s.files := by
  rw [load_workspace_state_fst, getWorkspaceDir_files]

lemma find?_append_none {α : Type} (l₁ l₂ : List α) (p : α → Bool)
    (h : ∀ x ∈ l₁, p x = false) : (l₁ ++ l₂).find? p = l₂.find? p := by
  induction l₁ with
  | nil => rfl
  | cons a l ih =>
    have ha : ¬p a = true := by simp [h a (List.mem_cons_self a l)]
    rw [List.cons_append, List.find?_cons_of_neg _ ha]
    exact ih fun x hx => h x (List.mem_cons_of_mem a hx)

lemma filter_fresh_eq_self (s : StoreState) (wid nv : String)
    (hfresh : hasKey s wid nv = false) :
    (s.files.filter fun f => !(f.1 == wid && f.2.1 == nv)) = s.files := by
  rw [List.filter_eq_self]
  intro f hf
  have : ¬(f.1 == wid && f.2.1 == nv) = true := by
    intro hcontra
    have : s.files.any (fun f => f.1 == wid && f.2.1 == nv) = true :=
      List.any_eq_true.mpr ⟨f, hf, hcontra⟩
    rw [hasKey] at hfresh
    simp [this] at hfresh
  simp [this]

lemma save_workspace_files_fresh (s : StoreState) (ws : Workspace)
    (hfresh : hasKey s ws.id ws.version = false) :
    (save_workspace s ws).files = s.files ++ [(ws.id, ws.version, ws)] := by
  show ((getWorkspaceDir s ws.id).files.filter fun f => !(f.1 == ws.id && f.2.1 == ws.version))
      ++ [(ws.id, ws.version, ws)] = _
  rw [getWorkspaceDir_files, filter_fresh_eq_self s ws.id ws.version hfresh]

lemma versionsOf_save_fresh (s : StoreState) (ws : Workspace)
    (hfresh : hasKey s ws.id ws.version = false) :
    versionsOf (save_workspace s ws) ws.id = versionsOf s ws.id ++ [ws.version] := by
  rw [versionsOf, save_workspace_files_fresh s ws hfresh, List.filter_append,
    List.map_append, versionsOf]
  simp

lemma findFile_save_fresh (s : StoreState) (ws : Workspace)
    (hfresh : hasKey s ws.id ws.version = false) :
    findFile (save_workspace s ws).files ws.id ws.version = some ws := by
  rw [findFile, save_workspace_files_fresh s ws hfresh]
  rw [find?_append_none]
  · simp [List.find?_cons]
  · intro f hf
    have hcontra : ¬(f.1 == ws.id && f.2.1 == ws.version) = true := by
      intro hcontra
      have : s.files.any (fun f => f.1 == ws.id && f.2.1 == ws.version) = true :=
        List.any_eq_true.mpr ⟨f, hf, hcontra⟩
      rw [hasKey] at hfresh
      simp [this] at hfresh
    simp [hcontra]

/- Claim C1 -/

def c1ps : ProblemSpace := { context := "c", goal := "g" }

def c1store : StoreState :=
  { dirs := ["ws1"],
    files := [("ws1", "v1",
      { id := "ws1", version := "v1", problem_space := c1ps, solution_space := none })] }

def c1reasoner : ProblemReasoner :=
  { extract := Except.ok c1ps, check := Except.ok ["Consistent"],
    refine := Except.ok c1ps }

/-- C1: on a run with no changes and no stored solution space, the workflow
indeed performs no write, but the returned final version id is the workspace
id, not the version id that was supplied as input; save_state never receives
the input version id at all. Evaluated at the concrete failing input:
workspace ws1 at version v1, reasoner echoing the stored problem space and a
Consistent check. -/
theorem c1_noop_save_returns_workspace_id :
    (runProblemWorkflow c1store "ws1" "v1" c1reasoner true "v2").2
        = Except.ok (some "ws1")
    ∧ (runProblemWorkflow c1store "ws1" "v1" c1reasoner true "v2").1.files
        = c1store.files
    ∧ ("ws1" : String) ≠ "v1" := by
  refine ⟨rfl, rfl, by decide⟩

/- Claim C2 -/

/-- The C2 claim as stated: a write occurs iff has_changes is true, a solution
space value is present, or remove_solutions was signaled. -/
def c2ClaimAsStated : Prop :=
  ∀ (s : StoreState) (ps : ProblemSpace) (wid : String) (hc : Bool)
    (ss : Option SolutionSpace) (rm : Bool) (nv : String), wid ≠ "" →
    ((save_state s (some ps) wid hc ss rm nv).1 ≠ s ↔
      (hc = true ∨ ss.isSome = true ∨ rm = true))

/-- C2 counterexample: with has_changes false, no solution space, and
remove_solutions signaled, save_state performs no write, refuting the claimed
equivalence at that input. -/
theorem c2_counterexample : ¬ c2ClaimAsStated := by
  intro h
  have h2 := (h { dirs := [], files := [] } {} "ws1" false none true "v2"
    (by decide)).2 (Or.inr (Or.inr rfl))
  exact h2 rfl

/-- C2 amended: a new version is written iff has_changes is true or a solution
space value is present (remove_solutions alone forces nothing when no solution
space exists); whenever remove_solutions is signaled and a write occurs the
persisted solution space is absent; and a solution space value present forces
a save even when has_changes is false. -/
theorem c2_save_write_condition (s : StoreState) (ps : ProblemSpace) (wid : String)
    (hc : Bool) (ss : Option SolutionSpace) (rm : Bool) (nv : String)
    (hwid : wid ≠ "") (hfresh : hasKey s wid nv = false) :
    (versionsOf (save_state s (some ps) wid hc ss rm nv).1 wid =
      if hc = true ∨ ss.isSome = true then versionsOf s wid ++ [nv]
      else versionsOf s wid)
    ∧ ((hc = true ∨ ss.isSome = true) → rm = true →
        findFile (save_state s (some ps) wid hc ss rm nv).1.files wid nv =
          some { id := wid, version := nv, problem_space := ps, solution_space := none })
    ∧ (ss.isSome = true →
        versionsOf (save_state s (some ps) wid hc ss rm nv).1 wid =
          versionsOf s wid ++ [nv]) := by
  have hg1 : ¬(wid = "" ∨ (some ps : Option ProblemSpace) = none) := by simp [hwid]
  by_cases hw : hc = true ∨ ss.isSome = true
  · have hg2 : ¬(hc = false ∧ ss = none) := by
      rintro ⟨h1, h2⟩
      rcases hw with hw | hw
      · rw [h1] at hw; simp at hw
      · rw [h2] at hw; simp at hw
    have hsave : save_state s (some ps) wid hc ss rm nv =
        ((update_workspace s wid ps (if rm then none else ss) nv).1,
         some (update_workspace s wid ps (if rm then none else ss) nv).2) := by
      rw [save_state, if_neg hg1, if_neg hg2]
      simp only [Option.getD_some]
    refine ⟨?_, ?_, ?_⟩
    · rw [if_pos hw, hsave]
      exact versionsOf_save_fresh s _ hfresh
    · intro _ hrm
      rw [hsave]
      simp only [hrm, if_pos]
      exact findFile_save_fresh s _ hfresh
    · intro _
      rw [hsave]
      exact versionsOf_save_fresh s _ hfresh
  · have hc' : hc = false := by
      cases hc
      · rfl
      · exact absurd (Or.inl rfl) hw
    have hss : ss = none := by
      cases ss
      · rfl
      · exact absurd (Or.inr rfl) hw
    have hg2 : hc = false ∧ ss = none := ⟨hc', hss⟩
    have hsave : save_state s (some ps) wid hc ss rm nv = (s, some wid) := by
      rw [save_state, if_neg hg1, if_pos hg2]
    refine ⟨?_, ?_, ?_⟩
    · rw [if_neg hw, hsave]
    · intro hcon _; exact absurd hcon hw
    · intro hcon; exact absurd (Or.inr hcon) hw

/-- C2 witness: the amended statement evaluated at a concrete fresh store,
with a solution space present, has_changes false and remove_solutions true:
a version is written and the persisted solution space is absent. -/
theorem c2_save_write_condition_witness :
    (versionsOf (save_state { dirs := [], files := [] } (some {}) "w" false
        (some { candidates := [{ id := 1 }] }) true "v").1 "w" =
      if false = true ∨ (some { candidates := [{ id := 1 }] } : Option SolutionSpace).isSome = true
      then versionsOf { dirs := [], files := [] } "w" ++ ["v"]
      else versionsOf { dirs := [], files := [] } "w")
    ∧ findFile (save_state { dirs := [], files := [] } (some {}) "w" false
        (some { candidates := [{ id := 1 }] }) true "v").1.files "w" "v" =
        some { id := "w", version := "v", problem_space := {}, solution_space := none } := by
  have h := c2_save_write_condition { dirs := [], files := [] } {} "w" false
    (some { candidates := [{ id := 1 }] }) true "v" (by decide) (by decide)
  exact ⟨h.1, h.2.1 (Or.inr rfl) rfl⟩

/- Claim C3 -/

/-- The C3 claim as stated: pass-through exactly when the observation list is
empty or is the single-element list with the exact string Consistent. -/
def c3ClaimAsStated : Prop :=
  ∀ (P : ProblemSpace) (O : List String) (h : Bool) (R : ProblemSpace),
    ((O = [] ∨ O = ["Consistent"]) → refine_problem_space P O h R = (P, h))
    ∧ (¬(O = [] ∨ O = ["Consistent"]) →
        refine_problem_space P O h R = (R, h || decide (R ≠ P)))

/-- C3 counterexample: the observation list with the single lowercase string
consistent is not the exact sentinel list, yet the code passes through and
never adopts the reasoner output, refuting the claim at that input. -/
theorem c3_counterexample : ¬ c3ClaimAsStated := by
  intro h
  have h2 := (h {} ["consistent"] false { goal := "g" }).2 (by decide)
  exact absurd h2 (by decide)

lemma refineSkip_iff (O : List String) :
    refineSkip O = true ↔ (O = [] ∨ ∃ o, O = [o] ∧ pyLower o = "consistent") := by
  cases O with
  | nil => simp [refineSkip]
  | cons a l =>
    cases l with
    | nil => simp [refineSkip, List.headI]
    | cons b m => simp [refineSkip, List.headI]

/-- C3 amended: the refine step is a strict pass-through (the reasoner output
is ignored, so the reasoner is never consulted) exactly when the observation
list is empty or is a single observation whose lowercase form is consistent;
otherwise the reasoner output R becomes the result and the flag becomes the
previous flag OR the inequality of R with the input. -/
theorem c3_refine_gating (P : ProblemSpace) (O : List String) (hc : Bool)
    (R : ProblemSpace) :
    ((O = [] ∨ ∃ o, O = [o] ∧ pyLower o = "consistent") →
        refine_problem_space P O hc R = (P, hc))
    ∧ (¬(O = [] ∨ ∃ o, O = [o] ∧ pyLower o = "consistent") →
        refine_problem_space P O hc R = (R, hc || decide (R ≠ P))) := by
  constructor
  · intro h
    have hs : refineSkip O = true := (refineSkip_iff O).mpr h
    simp [refine_problem_space, hs]
  · intro h
    have hs : refineSkip O = false := by
      cases hh : refineSkip O
      · rfl
      · exact absurd ((refineSkip_iff O).mp hh) h
    simp [refine_problem_space, hs]

/-- C3 witness: the pass-through branch at the sentinel observation list. -/
theorem c3_refine_gating_witness :
    refine_problem_space {} ["Consistent"] false { goal := "g" } = ({}, false) :=
  (c3_refine_gating {} ["Consistent"] false { goal := "g" }).1
    (Or.inr ⟨"Consistent", rfl, by decide⟩)

/- Claim C4 -/

lemma le_foldl_max (xs : List Int) (a : Int) : a ≤ xs.foldl max a := by
  induction xs generalizing a with
  | nil => exact le_refl a
  | cons y ys ih =>
    rw [List.foldl_cons]
    exact le_trans (le_max_left a y) (ih (max a y))

lemma mem_le_foldl_max (xs : List Int) (a x : Int) (hx : x ∈ xs) :
    x ≤ xs.foldl max a := by
  induction xs generalizing a with
  | nil => simp at hx
  | cons y ys ih =>
    rw [List.foldl_cons]
    rcases List.mem_cons.mp hx with h | h
    · subst h
      exact le_trans (le_max_right a x) (le_foldl_max ys (max a x))
    · exact ih (max a y) h

lemma mem_le_pyMaxInt (l : List Int) (d x : Int) (hx : x ∈ l) : x ≤ pyMaxInt d l := by
  cases l with
  | nil => simp at hx
  | cons y ys =>
    rw [pyMaxInt]
    rcases List.mem_cons.mp hx with h | h
    · subst h; exact le_foldl_max ys x
    · exact mem_le_foldl_max ys y x h

lemma lt_nextCandidateId (acc : List SolutionCandidate) (c : SolutionCandidate)
    (hc : c ∈ acc) : c.id < nextCandidateId acc := by
  have hne : acc.isEmpty = false := by
    cases acc
    · simp at hc
    · rfl
  rw [nextCandidateId, hne]
  simp only [Bool.false_eq_true, if_false]
  have := mem_le_pyMaxInt (acc.map fun c => c.id) 0 c.id
    (List.mem_map_of_mem (fun c => c.id) hc)
  omega

lemma nextCandidateId_eq (l : List SolutionCandidate) :
    nextCandidateId l = pyMaxInt 0 (l.map fun c => c.id) + 1 := by
  cases l with
  | nil => rfl
  | cons c cs => rfl

lemma genFold_eq (protos init : List SolutionCandidate) :
    genFold init protos = init ++ genCands init protos := by
  induction protos generalizing init with
  | nil => simp [genFold, genCands]
  | cons p ps ih =>
    have h1 : genFold init (p :: ps) =
        genFold (init ++ [generate_candidate (some { candidates := init }) p]) ps := by
      rw [genFold, genFold, List.foldl_cons]
    rw [h1, ih, genCands]
    simp

lemma genCands_gt_init (protos : List SolutionCandidate) :
    ∀ (init : List SolutionCandidate), ∀ c ∈ init, ∀ d ∈ genCands init protos,
      c.id < d.id := by
  induction protos with
  | nil =>
    intro init c _ d hd
    simp [genCands] at hd
  | cons p ps ih =>
    intro init c hc d hd
    rw [genCands] at hd
    rcases List.mem_cons.mp hd with h | h
    · subst h
      exact lt_nextCandidateId init c hc
    · exact ih (init ++ [generate_candidate (some { candidates := init }) p]) c
        (List.mem_append_left _ hc) d h

lemma genCands_pairwise (protos : List SolutionCandidate) :
    ∀ init : List SolutionCandidate,
      ((genCands init protos).map fun c => c.id).Pairwise (· < ·) := by
  induction protos with
  | nil => intro init; simp [genCands]
  | cons p ps ih =>
    intro init
    rw [genCands]
    simp only [List.map_cons, List.pairwise_cons]
    constructor
    · intro x hx
      obtain ⟨d, hd, hdx⟩ := List.mem_map.mp hx
      subst hdx
      exact genCands_gt_init ps
        (init ++ [generate_candidate (some { candidates := init }) p])
        (generate_candidate (some { candidates := init }) p)
        (List.mem_append_right _ (List.mem_singleton_self _)) d hd
    · exact ih (init ++ [generate_candidate (some { candidates := init }) p])

/-- C4: the id assigned by generate_candidate is the maximum existing id plus
one, the maximum defaulting to zero when no candidates exist (so the first id
is one); across any sequence of generation calls that each append the new
candidate to the workspace, the freshly assigned ids are strictly increasing
in generation order and all ids in the workspace stay pairwise distinct, even
when the initial ids are non-contiguous. -/
theorem c4_candidate_id_allocation :
    (∀ (ss : Option SolutionSpace) (p : SolutionCandidate),
        (generate_candidate ss p).id =
          pyMaxInt 0 (((ss.map fun x => x.candidates).getD []).map fun c => c.id) + 1)
    ∧ (∀ (ss : Option SolutionSpace) (p : SolutionCandidate),
        ((ss.map fun x => x.candidates).getD []) = [] → (generate_candidate ss p).id = 1)
    ∧ (∀ (init protos : List SolutionCandidate),
        ((init.map fun c => c.id).Nodup →
          ((genFold init protos).map fun c => c.id).Nodup)
        ∧ (((genCands init protos).map fun c => c.id).Pairwise (· < ·))) := by
  refine ⟨?_, ?_, ?_⟩
  · intro ss p
    exact nextCandidateId_eq ((ss.map fun x => x.candidates).getD [])
  · intro ss p h
    show nextCandidateId ((ss.map fun x => x.candidates).getD []) = 1
    rw [h]
    rfl
  · intro init protos
    refine ⟨?_, genCands_pairwise protos init⟩
    intro hinit
    rw [genFold_eq, List.map_append, List.nodup_append]
    refine ⟨hinit, ?_, ?_⟩
    · exact (genCands_pairwise protos init).imp fun h => ne_of_lt h
    · intro a ha hb
      obtain ⟨c, hc, hca⟩ := List.mem_map.mp ha
      obtain ⟨d, hd, hda⟩ := List.mem_map.mp hb
      have := genCands_gt_init protos init c hc d hd
      omega

/-- C4 witness: a workspace with the non-contiguous ids 3 and 7 followed by
two generation calls keeps all ids distinct and the new ids increasing. -/
theorem c4_candidate_id_allocation_witness :
    (((genFold [{ id := 3 }, { id := 7 }] [{ id := 0 }, { id := 0 }]).map
        fun c => c.id).Nodup)
    ∧ (((genCands [{ id := 3 }, { id := 7 }] [{ id := 0 }, { id := 0 }]).map
        fun c => c.id).Pairwise (· < ·)) := by
  have h := c4_candidate_id_allocation.2.2 [{ id := 3 }, { id := 7 }]
    [{ id := 0 }, { id := 0 }]
  exact ⟨h.1 (by decide), h.2⟩

/- Claim C5 -/

lemma sanitizeCandidates_seen_congr (l : List SolutionCandidate) :
    ∀ (s1 s2 : List Int), (∀ x : Int, x ∈ s1 ↔ x ∈ s2) →
      sanitizeCandidates s1 l = sanitizeCandidates s2 l := by
  induction l with
  | nil => intro s1 s2 _; rfl
  | cons c rest ih =>
    intro s1 s2 h
    rw [sanitizeCandidates, sanitizeCandidates]
    by_cases hm : c.id ∈ s1
    · rw [if_pos hm, if_pos ((h c.id).mp hm)]
      exact ih s1 s2 h
    · rw [if_neg hm, if_neg fun hx => hm ((h c.id).mpr hx)]
      congr 1
      exact ih _ _ (by intro x; simp [List.mem_cons, h x])

lemma sanitizeCandidates_insert (i : Int) (l : List SolutionCandidate) :
    ∀ seen : List Int,
      sanitizeCandidates (i :: seen) l =
        sanitizeCandidates seen (l.filter fun d => !(d.id == i)) := by
  induction l with
  | nil => intro seen; rfl
  | cons c rest ih =>
    intro seen
    by_cases hci : c.id = i
    · rw [sanitizeCandidates, if_pos (by simp [hci]),
        List.filter_cons_of_neg (by simp [hci])]
      exact ih seen
    · by_cases hcs : c.id ∈ seen
      · rw [sanitizeCandidates, if_pos (List.mem_cons_of_mem i hcs),
          List.filter_cons_of_pos (by simp [hci]), sanitizeCandidates, if_pos hcs]
        exact ih seen
      · have hnotin : c.id ∉ i :: seen := by simp [hci, hcs]
        rw [sanitizeCandidates, if_neg hnotin,
          List.filter_cons_of_pos (by simp [hci]), sanitizeCandidates, if_neg hcs]
        congr 1
        rw [sanitizeCandidates_seen_congr rest (c.id :: i :: seen) (i :: c.id :: seen)
          (by intro x; simp [List.mem_cons]; tauto)]
        exact ih (c.id :: seen)

lemma sanitize_sublist (l : List SolutionCandidate) :
    ∀ seen : List Int, (sanitizeCandidates seen l).Sublist l := by
  induction l with
  | nil => intro seen; simp [sanitizeCandidates]
  | cons c rest ih =>
    intro seen
    rw [sanitizeCandidates]
    by_cases hm : c.id ∈ seen
    · rw [if_pos hm]
      exact (ih seen).cons c
    · rw [if_neg hm]
      exact (ih (c.id :: seen)).cons₂ c

lemma sanitize_nodup_aux (l : List SolutionCandidate) :
    ∀ seen : List Int,
      ((sanitizeCandidates seen l).map fun c => c.id).Nodup
      ∧ ∀ c ∈ sanitizeCandidates seen l, c.id ∉ seen := by
  induction l with
  | nil =>
    intro seen
    refine ⟨by simp [sanitizeCandidates], ?_⟩
    intro c hc
    simp [sanitizeCandidates] at hc
  | cons c rest ih =>
    intro seen
    rw [sanitizeCandidates]
    by_cases hm : c.id ∈ seen
    · rw [if_pos hm]
      exact ih seen
    · rw [if_neg hm]
      obtain ⟨h1, h2⟩ := ih (c.id :: seen)
      refine ⟨?_, ?_⟩
      · rw [List.map_cons, List.nodup_cons]
        refine ⟨?_, h1⟩
        intro hmem
        obtain ⟨d, hd, hdid⟩ := List.mem_map.mp hmem
        exact (h2 d hd) (hdid ▸ List.mem_cons_self d.id seen)
      · intro d hd
        rcases List.mem_cons.mp hd with h | h
        · subst h; exact hm
        · exact fun hds => (h2 d h) (List.mem_cons_of_mem _ hds)

def c5store : StoreState :=
  { dirs := ["w"],
    files := [("w", "v",
      { id := "w", version := "v", problem_space := {},
        solution_space := some { candidates :=
          [{ id := 3 }, { id := 3, hypothesis := "b" }, { id := 5 }] } })] }

/-- C5: the load-step dedup keeps exactly the first occurrence of each id (the
recursion equation below), is order-preserving (the result is a sublist of the
stored order), always yields pairwise-distinct ids, and loading a workspace
whose stored candidates carry ids 3, 3, 5 yields ids 3, 5 in that order. -/
theorem c5_load_dedup :
    (∀ (c : SolutionCandidate) (l : List SolutionCandidate),
        sanitizeCandidates [] (c :: l) =
          c :: sanitizeCandidates [] (l.filter fun d => !(d.id == c.id)))
    ∧ (∀ l : List SolutionCandidate, (sanitizeCandidates [] l).Sublist l)
    ∧ (∀ l : List SolutionCandidate,
        ((sanitizeCandidates [] l).map fun c => c.id).Nodup)
    ∧ (((load_workspace_state c5store "w" "v").2.2.map fun ss =>
          ss.candidates.map fun c => c.id) = some [3, 5]) := by
  refine ⟨?_, fun l => sanitize_sublist l [], fun l => (sanitize_nodup_aux l []).1,
    by decide⟩
  intro c l
  rw [sanitizeCandidates, if_neg (by simp)]
  congr 1
  exact sanitizeCandidates_insert c.id l []

/- Claim C6 -/

/-- C6: whenever a run of either workflow fails, no write was performed on the
store (its version files are exactly those that existed before); and a
reasoner failure in a step preceding save does make the run fail. The engine
wiring is modelled from the spec since the wirl runner is not in the sources. -/
theorem c6_failure_no_write (s : StoreState) (wid vid : String)
    (rp : ProblemReasoner) (rs : SolutionReasoner) (rm : Bool) (nv : String) :
    (isErr (runProblemWorkflow s wid vid rp rm nv).2 = true →
        (runProblemWorkflow s wid vid rp rm nv).1.files = s.files)
    ∧ (isErr (runSolutionWorkflow s wid vid rs nv).2 = true →
        (runSolutionWorkflow s wid vid rs nv).1.files = s.files)
    ∧ (isErr rp.extract = true → isErr (runProblemWorkflow s wid vid rp rm nv).2 = true)
    ∧ (isErr rs.gen = true → isErr (runSolutionWorkflow s wid vid rs nv).2 = true) := by
  refine ⟨?_, ?_, ?_, ?_⟩
  · intro herr
    cases hre : rp.extract with
    | error e => simp [runProblemWorkflow, hre, load_workspace_state_files]
    | ok ex =>
      cases hrc : rp.check with
      | error e => simp [runProblemWorkflow, hre, hrc, load_workspace_state_files]
      | ok obs =>
        cases hrf : refine_problem_space_step
            (extract_problem (load_workspace_state s wid vid).2.1 ex).1 obs
            (extract_problem (load_workspace_state s wid vid).2.1 ex).2 rp.refine with
        | error e => simp [runProblemWorkflow, hre, hrc, hrf, load_workspace_state_files]
        | ok rf =>
          exfalso
          simp [runProblemWorkflow, hre, hrc, hrf, isErr] at herr
  · intro herr
    cases hrg : rs.gen with
    | error e => simp [runSolutionWorkflow, generate_candidate_step, hrg,
        load_workspace_state_files]
    | ok g =>
      cases hrc : compare_solutions_step (load_workspace_state s wid vid).2.2
          (some (generate_candidate (load_workspace_state s wid vid).2.2 g)) rs.cmp with
      | error e => simp [runSolutionWorkflow, generate_candidate_step, hrg, hrc,
          load_workspace_state_files]
      | ok newSS =>
        exfalso
        simp [runSolutionWorkflow, generate_candidate_step, hrg, hrc, isErr] at herr
  · intro he
    cases hre : rp.extract with
    | error e => simp [runProblemWorkflow, hre, isErr]
    | ok ex => rw [hre] at he; simp [isErr] at he
  · intro he
    cases hrg : rs.gen with
    | error e => simp [runSolutionWorkflow, generate_candidate_step, hrg, isErr]
    | ok g => rw [hrg] at he; simp [isErr] at he

def c6rp : ProblemReasoner :=
  { extract := Except.error (ReasonerFailure.failure "backend down"),
    check := Except.ok [], refine := Except.ok {} }

def c6rs : SolutionReasoner :=
  { gen := Except.error (ReasonerFailure.failure "backend down"),
    cmp := Except.ok { analysis := "", recommendation := "", simplification_feedback := "" } }

def c6store : StoreState :=
  { dirs := ["ws6"],
    files := [("ws6", "v1",
      { id := "ws6", version := "v1", problem_space := { goal := "g" },
        solution_space := none })] }

/-- C6 witness: with a reasoner whose first call fails, both workflows abort
and leave the version files of a concrete store untouched. -/
theorem c6_failure_no_write_witness :
    isErr (runProblemWorkflow c6store "ws6" "v1" c6rp true "v2").2 = true
    ∧ (runProblemWorkflow c6store "ws6" "v1" c6rp true "v2").1.files = c6store.files
    ∧ isErr (runSolutionWorkflow c6store "ws6" "v1" c6rs "v2").2 = true
    ∧ (runSolutionWorkflow c6store "ws6" "v1" c6rs "v2").1.files = c6store.files := by
  have h := c6_failure_no_write c6store "ws6" "v1" c6rp c6rs true "v2"
  have hp := h.2.2.1 rfl
  have hs := h.2.2.2 rfl
  exact ⟨hp, h.1 hp, hs, h.2.1 hs⟩

/- Claim C7 -/

lemma findFile_eq_none_iff (s : StoreState) (wid vid : String) :
    findFile s.files wid vid = none ↔ hasKey s wid vid = false := by
  rw [findFile, hasKey]
  constructor
  · intro h
    rw [Option.map_eq_none'] at h
    rw [List.find?_eq_none] at h
    cases hany : s.files.any fun f => f.1 == wid && f.2.1 == vid
    · rfl
    · obtain ⟨x, hx, hpx⟩ := List.any_eq_true.mp hany
      exact absurd hpx (h x hx)
  · intro h
    rw [Option.map_eq_none', List.find?_eq_none]
    intro x hx hpx
    have : s.files.any (fun f => f.1 == wid && f.2.1 == vid) = true :=
      List.any_eq_true.mpr ⟨x, hx, hpx⟩
    rw [this] at h
    exact Bool.noConfusion h

lemma findFile_getWorkspaceDir (s : StoreState) (w wid vid : String) :
    findFile (getWorkspaceDir s w).files wid vid = findFile s.files wid vid := by
  rw [getWorkspaceDir_files]

/-- C7: the store load fails with notFound exactly when no file is stored
under the (workspace id, version id) key; and on that failure the workflow
load step does not fail but substitutes the default empty problem space
(all strings empty, both lists empty) and no solution space. -/
theorem c7_load_notfound_default (s : StoreState) (wid vid : String) :
    ((load_workspace s wid vid).2 = Except.error StoreError.notFound ↔
      hasKey s wid vid = false)
    ∧ (hasKey s wid vid = false →
        (load_workspace_state s wid vid).2 =
          ({ context := "", invariants := [], goal := "", problem := "",
             variants := [] }, none)) := by
  constructor
  · constructor
    · intro h
      cases hff : findFile s.files wid vid with
      | none => exact (findFile_eq_none_iff s wid vid).mp hff
      | some ws =>
        have : (load_workspace s wid vid).2 = Except.ok ws := by
          show (match findFile (getWorkspaceDir s wid).files wid vid with
            | some ws => Except.ok ws
            | none => Except.error StoreError.notFound) = Except.ok ws
          rw [findFile_getWorkspaceDir, hff]
        rw [this] at h
        exact Except.noConfusion h
    · intro h
      have hff : findFile s.files wid vid = none :=
        (findFile_eq_none_iff s wid vid).mpr h
      show (match findFile (getWorkspaceDir s wid).files wid vid with
        | some ws => Except.ok ws
        | none => Except.error StoreError.notFound) = _
      rw [findFile_getWorkspaceDir, hff]
  · intro h
    have hff : findFile s.files wid vid = none :=
      (findFile_eq_none_iff s wid vid).mpr h
    have herr : (load_workspace s wid vid).2 = Except.error StoreError.notFound := by
      show (match findFile (getWorkspaceDir s wid).files wid vid with
        | some ws => Except.ok ws
        | none => Except.error StoreError.notFound) = _
      rw [findFile_getWorkspaceDir, hff]
    show (match (load_workspace s wid vid).2 with
      | Except.ok ws => (ws.problem_space, ws.solution_space.map sanitizeSolutionSpace)
      | Except.error _ => ({}, none)) = _
    rw [herr]

/-- C7 witness: loading from the empty store yields the default empty problem
space and no solution space. -/
theorem c7_load_notfound_default_witness :
    (load_workspace_state { dirs := [], files := [] } "w" "v").2 =
      ({ context := "", invariants := [], goal := "", problem := "",
         variants := [] }, none) :=
  (c7_load_notfound_default { dirs := [], files := [] } "w" "v").2 rfl

/- Claim C8 -/

lemma list_versions_snd (s : StoreState) (wid : String) :
    (list_versions s wid).2 = versionsOf s wid := by
  show versionsOf (getWorkspaceDir s wid) wid = versionsOf s wid
  rw [versionsOf, versionsOf, getWorkspaceDir_files]

lemma versionsOf_unknown (s : StoreState) (wid : String)
    (h : (s.files.all fun f => !(f.1 == wid)) = true) : versionsOf s wid = [] := by
  rw [versionsOf]
  have : s.files.filter (fun f => f.1 == wid) = [] := by
    rw [List.filter_eq_nil_iff]
    intro f hf
    have := List.all_eq_true.mp h f hf
    simp at this
    simp [this]
  rw [this]
  rfl

/-- C8: in the store model, whose file list carries the modification-time
order, a save under a fresh (id, version) key appends that version at the end
of list_versions, so the returned sequence lists versions in creation order,
oldest first, consistent with the order of saves; and for a workspace with no
stored files list_versions returns the empty sequence. -/
theorem c8_list_versions_order :
    (∀ (s : StoreState) (ws : Workspace), hasKey s ws.id ws.version = false →
        (list_versions (save_workspace s ws) ws.id).2 =
          (list_versions s ws.id).2 ++ [ws.version])
    ∧ (∀ (s : StoreState) (wid : String),
        (s.files.all fun f => !(f.1 == wid)) = true → (list_versions s wid).2 = []) := by
  constructor
  · intro s ws h
    rw [list_versions_snd, list_versions_snd]
    exact versionsOf_save_fresh s ws h
  · intro s wid h
    rw [list_versions_snd]
    exact versionsOf_unknown s wid h

/-- C8 witness: two successive fresh saves into the empty store list their
versions in save order, and an unknown workspace lists no versions. -/
theorem c8_list_versions_order_witness :
    (list_versions (save_workspace { dirs := [], files := [] }
        { id := "w", version := "a", problem_space := {} }) "w").2 =
      (list_versions { dirs := [], files := [] } "w").2 ++ ["a"]
    ∧ (list_versions { dirs := [], files := [] } "zzz").2 = [] := by
  constructor
  · exact c8_list_versions_order.1 { dirs := [], files := [] }
      { id := "w", version := "a", problem_space := {} } rfl
  · exact c8_list_versions_order.2 { dirs := [], files := [] } "zzz" rfl

/- Claim C9 -/

/-- C9: the compare step forms the candidate union as the order-preserving
append of the new candidate (when present) to the prior candidates; when the
union is empty it produces no solution space, and otherwise it emits a
complete solution space carrying the full union, a comparison built from the
reasoner analysis and recommendation, and the simplification feedback. -/
theorem c9_compare_union (ss : Option SolutionSpace) (cand : Option SolutionCandidate)
    (r : ComparisonResult) :
    (compare_solutions ss cand r = none ↔ unionCandidates ss cand = [])
    ∧ (∀ out : SolutionSpace, compare_solutions ss cand r = some out →
        out.candidates = unionCandidates ss cand
        ∧ out.comparison = some { analysis := r.analysis, recommendation := r.recommendation }
        ∧ out.simplification_feedback = some r.simplification_feedback)
    ∧ unionCandidates ss cand =
        ((ss.map fun x => x.candidates).getD []) ++ cand.toList := by
  by_cases he : (unionCandidates ss cand).isEmpty = true
  · have hnone : compare_solutions ss cand r = none := by
      rw [compare_solutions, if_pos he]
    refine ⟨?_, ?_, rfl⟩
    · rw [hnone]
      simp [List.isEmpty_iff.mp he]
    · intro out hout
      rw [hnone] at hout
      exact Option.noConfusion hout
  · have hsome : compare_solutions ss cand r = some
        { candidates := unionCandidates ss cand,
          comparison := some { analysis := r.analysis, recommendation := r.recommendation },
          simplification_feedback := some r.simplification_feedback } := by
      rw [compare_solutions, if_neg he]
    refine ⟨?_, ?_, rfl⟩
    · rw [hsome]
      constructor
      · intro h; exact Option.noConfusion h
      · intro h
        exact absurd (List.isEmpty_iff.mpr h) he
    · intro out hout
      rw [hsome] at hout
      have := Option.some.inj hout
      rw [← this]
      exact ⟨rfl, rfl, rfl⟩

/-- C9 witness: one prior candidate plus a new one yields the two-element
union with the full comparison attached. -/
theorem c9_compare_union_witness :
    ({ candidates := [{ id := 1 }, { id := 2 }],
       comparison := some { analysis := "a", recommendation := "r" },
       simplification_feedback := some "s" } : SolutionSpace).candidates =
      unionCandidates (some { candidates := [{ id := 1 }] }) (some { id := 2 })
    ∧ ({ candidates := [{ id := 1 }, { id := 2 }],
         comparison := some { analysis := "a", recommendation := "r" },
         simplification_feedback := some "s" } : SolutionSpace).comparison =
        some { analysis := "a", recommendation := "r" }
    ∧ ({ candidates := [{ id := 1 }, { id := 2 }],
         comparison := some { analysis := "a", recommendation := "r" },
         simplification_feedback := some "s" } : SolutionSpace).simplification_feedback =
        some "s" :=
  (c9_compare_union (some { candidates := [{ id := 1 }] }) (some { id := 2 })
    { analysis := "a", recommendation := "r", simplification_feedback := "s" }).2.1
    _ rfl

/- Claim C10 -/

/-- C10: listing versions or loading for any workspace id creates its
directory as a side effect, so the id subsequently appears in
list_workspaces even when no version was ever written under it, while
list_versions still returns the empty sequence for it, both before and
after the directory is created. -/
theorem c10_dir_creation_side_effect (s : StoreState) (w v : String) :
    (w ∈ list_workspaces (list_versions s w).1)
    ∧ (w ∈ list_workspaces (load_workspace s w v).1)
    ∧ ((s.files.all fun f => !(f.1 == w)) = true →
        (list_versions s w).2 = []
        ∧ (list_versions (list_versions s w).1 w).2 = []) := by
  refine ⟨mem_getWorkspaceDir_dirs s w, mem_getWorkspaceDir_dirs s w, ?_⟩
  intro h
  constructor
  · rw [list_versions_snd]
    exact versionsOf_unknown s w h
  · rw [list_versions_snd]
    apply versionsOf_unknown
    show ((getWorkspaceDir s w).files.all fun f => !(f.1 == w)) = true
    rw [getWorkspaceDir_files]
    exact h

def c10store : StoreState :=
  { dirs := ["a"],
    files := [("a", "v1",
      { id := "a", version := "v1", problem_space := {}, solution_space := none })] }

/-- C10 witness: a workspace id never saved appears in list_workspaces after
list_versions touched it, while its version list stays empty. -/
theorem c10_dir_creation_side_effect_witness :
    ("b" ∈ list_workspaces (list_versions c10store "b").1)
    ∧ ((list_versions c10store "b").2 = []
        ∧ (list_versions (list_versions c10store "b").1 "b").2 = []) := by
  have h := c10_dir_creation_side_effect c10store "b" "v"
  exact ⟨h.1, h.2.2 rfl⟩

end Companion
